import Mathlib

/-!
Shallow embedding of the UBIGEO Venezuela lookup module
(`app/routers/ubigeo_v1.py`).

The module reads a JSON dataset of Venezuelan administrative divisions
(states, each containing municipalities, each containing parishes) and
offers lookup endpoints by hierarchical code and by name.  Name matching
lowercases the query and the stored names and strips diacritics with
`unidecode` before comparing for equality.

The dataset file itself is not part of the embedded source; every
operation below takes the result of `read_json_file` as an explicit
`Option Dataset` argument (`none` models the `None` returned when the
file is missing).  Python dict results that are the stored entity dict
augmented with ancestor-code keys are modelled as records that pair the
stored entity with the extra code fields.
-/

namespace Ubigeo

/-- Association list lookup on `Char` keys, used for the finite
character tables below. -/
def alookup {β : Type} : List (Char × β) → Char → Option β
  | [], _ => none
  | (k, v) :: rest, c => if k == c then some v else alookup rest c

/-- Lowercasing table for the characters relevant to the dataset:
the ASCII letters `A`–`Z` and the accented uppercase letters that occur
in Spanish place names.  Models Python `str.lower` on these characters
(identity elsewhere). -/
def lowerPairs : List (Char × Char) :=
  [('A', 'a'), ('B', 'b'), ('C', 'c'), ('D', 'd'), ('E', 'e'), ('F', 'f'),
   ('G', 'g'), ('H', 'h'), ('I', 'i'), ('J', 'j'), ('K', 'k'), ('L', 'l'),
   ('M', 'm'), ('N', 'n'), ('O', 'o'), ('P', 'p'), ('Q', 'q'), ('R', 'r'),
   ('S', 's'), ('T', 't'), ('U', 'u'), ('V', 'v'), ('W', 'w'), ('X', 'x'),
   ('Y', 'y'), ('Z', 'z'),
   ('Á', 'á'), ('É', 'é'), ('Í', 'í'), ('Ó', 'ó'), ('Ú', 'ú'), ('Ü', 'ü'),
   ('Ñ', 'ñ')]

/-- Transliteration table of the `unidecode` library restricted to the
accented characters of Spanish place names: each maps to its closest
ASCII equivalent. -/
def uniPairs : List (Char × List Char) :=
  [('á', ['a']), ('é', ['e']), ('í', ['i']), ('ó', ['o']), ('ú', ['u']),
   ('ü', ['u']), ('ñ', ['n']),
   ('Á', ['A']), ('É', ['E']), ('Í', ['I']), ('Ó', ['O']), ('Ú', ['U']),
   ('Ü', ['U']), ('Ñ', ['N'])]

/-- Python `str.lower` on a single character (for the modelled
character set; identity outside the table). -/
def pyLowerChar (c : Char) : Char :=
  (alookup lowerPairs c).getD c

/-- Model of `unidecode` on a single character: ASCII characters map to
themselves, table characters to their transliteration, and characters
outside the modelled set to the empty output. -/
def unidecodeChar (c : Char) : List Char :=
  if c.toNat < 128 then [c] else (alookup uniPairs c).getD []

/-- Python `str.lower`, characterwise. -/
def pyLower (s : String) : String :=
  ⟨s.data.map pyLowerChar⟩

/-- Model of `unidecode.unidecode`, characterwise with concatenation. -/
def unidecode (s : String) : String :=
  ⟨(s.data.map unidecodeChar).flatten⟩

/-- The normalization applied to every name before comparison in the
source: `unidecode(x.lower())`. -/
def normalize (s : String) : String :=
  unidecode (pyLower s)

/-- Python string slicing `s[0:n]`. -/
def strTake (s : String) (n : Nat) : String :=
  ⟨s.data.take n⟩

/-- A parish record of the dataset: keys `codigo`, `nombre`,
`nombres_alternos`. -/
structure Parish where
  codigo : String
  nombre : String
  nombres_alternos : List String
deriving DecidableEq, Repr

/-- A municipality record of the dataset: keys `codigo`, `nombre`,
`nombres_alternos`, `parroquias`. -/
structure Municipality where
  codigo : String
  nombre : String
  nombres_alternos : List String
  parroquias : List Parish
deriving DecidableEq, Repr

/-- A state record of the dataset: keys `codigo`, `nombre`,
`municipios`. -/
structure State where
  codigo : String
  nombre : String
  municipios : List Municipality
deriving DecidableEq, Repr

/-- The loaded JSON document: key `estados`. -/
structure Dataset where
  estados : List State
deriving DecidableEq, Repr

/-- A municipality lookup result: the stored municipality dict
augmented with the derived key `codigo_estado`. -/
structure MunicipalityHit where
  municipality : Municipality
  codigo_estado : String
deriving DecidableEq, Repr

/-- A parish lookup result: the stored parish dict augmented with the
derived keys `codigo_municipio` and `codigo_estado`. -/
structure ParishHit where
  parish : Parish
  codigo_municipio : String
  codigo_estado : String
deriving DecidableEq, Repr

/-- Embeds `get_list_states`: collects `item["nombre"]` for each state, in
order, by appending to an initially empty list; an unloaded dataset
contributes nothing. -/
def get_list_states (jsonData : Option Dataset) : List String :=
  match jsonData with
  | none => []
  | some d => d.estados.foldl (fun acc st => acc ++ [st.nombre]) []

/-- Embeds `get_item_state_by_id`: linear scan of `json_data["estados"]` for
the first state whose `codigo` equals `state_id`; `False` (here `none`)
otherwise. -/
def get_item_state_by_id (jsonData : Option Dataset) (state_id : String) :
    Option State :=
  match jsonData with
  | none => none
  | some d => d.estados.find? (fun st => st.codigo == state_id)

/-- Embeds `get_item_state_by_name`: linear scan for the first state whose
normalized `nombre` equals the normalized query. -/
def get_item_state_by_name (jsonData : Option Dataset) (state_name : String) :
    Option State :=
  match jsonData with
  | none => none
  | some d => d.estados.find? (fun st => normalize st.nombre == normalize state_name)

/-- Embeds `get_item_municipality_by_id`: derives `state_code =
municipality_id[0:2]`, resolves the state by code, then scans its
`municipios` for an exact `codigo` match, attaching `codigo_estado =
state_code` on success. -/
def get_item_municipality_by_id (jsonData : Option Dataset)
    (municipality_id : String) : Option MunicipalityHit :=
  match get_item_state_by_id jsonData (strTake municipality_id 2) with
  | none => none
  | some state =>
    match state.municipios.find? (fun m => m.codigo == municipality_id) with
    | none => none
    | some m => some ⟨m, strTake municipality_id 2⟩

/-- The loop body of the name-based municipality scan: for each
municipality in stored order, first compare the normalized primary
`nombre`, then each normalized entry of `nombres_alternos`; the first
match returns the municipality with `codigo_estado` derived from its
own code prefix `codigo[0:2]`. -/
def findMunicipalityLoop (municipios : List Municipality) (q : String) :
    Option MunicipalityHit :=
  match municipios with
  | [] => none
  | m :: rest =>
    if normalize m.nombre == normalize q then
      some ⟨m, strTake m.codigo 2⟩
    else if m.nombres_alternos.any (fun a => normalize a == normalize q) then
      some ⟨m, strTake m.codigo 2⟩
    else
      findMunicipalityLoop rest q

/-- Embeds `get_item_municipality_by_name`: resolves the state by name, then
runs the primary/alternate name scan over its municipalities. -/
def get_item_municipality_by_name (jsonData : Option Dataset)
    (state_name municipality_name : String) : Option MunicipalityHit :=
  match get_item_state_by_name jsonData state_name with
  | none => none
  | some state_data => findMunicipalityLoop state_data.municipios municipality_name

/-- Embeds `get_item_parish_by_id`: derives `municipality_code =
parish_id[0:4] + "00"`, resolves the municipality by code, then scans
its `parroquias` for an exact `codigo` match, attaching
`codigo_municipio = municipality_code` and the municipality result
field `codigo_estado`. -/
def get_item_parish_by_id (jsonData : Option Dataset) (parish_id : String) :
    Option ParishHit :=
  match get_item_municipality_by_id jsonData (strTake parish_id 4 ++ "00") with
  | none => none
  | some hit =>
    match hit.municipality.parroquias.find? (fun p => p.codigo == parish_id) with
    | none => none
    | some p => some ⟨p, strTake parish_id 4 ++ "00", hit.codigo_estado⟩

/-- The loop body of the name-based parish scan: primary name first,
then the alternates, attaching `codigo_municipio` and `codigo_estado`
taken from the resolved municipality result. -/
def findParishLoop (parroquias : List Parish) (q : String)
    (mcode scode : String) : Option ParishHit :=
  match parroquias with
  | [] => none
  | p :: rest =>
    if normalize p.nombre == normalize q then
      some ⟨p, mcode, scode⟩
    else if p.nombres_alternos.any (fun a => normalize a == normalize q) then
      some ⟨p, mcode, scode⟩
    else
      findParishLoop rest q mcode scode

/-- Embeds `get_item_parish`: resolves the municipality by state and
municipality name, then scans its parishes by name, attaching
`codigo_municipio = municipality_data["codigo"]` and `codigo_estado =
municipality_data["codigo_estado"]`. -/
def get_item_parish (jsonData : Option Dataset)
    (state_name municipality_name parish_name : String) : Option ParishHit :=
  match get_item_municipality_by_name jsonData state_name municipality_name with
  | none => none
  | some hit =>
    findParishLoop hit.municipality.parroquias parish_name
      hit.municipality.codigo hit.codigo_estado

/-- A municipality matches query `q` when its normalized primary name
or some normalized alternate name equals the normalized query. -/
def muniMatches (q : String) (m : Municipality) : Bool :=
  (normalize m.nombre == normalize q) ||
    m.nombres_alternos.any (fun a => normalize a == normalize q)

/-- A parish matches query `q` when its normalized primary name or some
normalized alternate name equals the normalized query. -/
def parishMatches (q : String) (p : Parish) : Bool :=
  (normalize p.nombre == normalize q) ||
    p.nombres_alternos.any (fun a => normalize a == normalize q)

/-- A character is stable under normalization when both lowercasing and
transliteration leave it alone. -/
def stableChar (c : Char) : Prop :=
  pyLowerChar c = c ∧ unidecodeChar c = [c]

instance (c : Char) : Decidable (stableChar c) := by
  unfold stableChar; infer_instance

theorem alookup_some_mem {β : Type} (t : List (Char × β)) (c : Char) (v : β)
    (h : alookup t c = some v) : (c, v) ∈ t := by
  induction t with
  | nil => simp [alookup] at h
  | cons p rest ih =>
    obtain ⟨k, w⟩ := p
    by_cases hk : k == c
    · simp [alookup, hk] at h
      simp_all [eq_of_beq hk]
    · simp [alookup, hk] at h
      exact List.mem_cons_of_mem _ (ih h)

theorem alookup_none_ne {β : Type} (t : List (Char × β)) (c : Char)
    (h : alookup t c = none) : ∀ p ∈ t, p.1 ≠ c := by
  induction t with
  | nil => simp
  | cons p rest ih =>
    obtain ⟨k, w⟩ := p
    by_cases hk : k == c
    · simp [alookup, hk] at h
    · intro q hq
      rcases List.mem_cons.mp hq with hq | hq
      · subst hq
        intro he
        exact hk (beq_iff_eq.mpr he)
      · simp only [alookup, hk, if_neg] at h
        exact ih h q hq

/-- Every replacement in the lowercasing table yields a character whose
whole transliteration output is stable under normalization. -/
theorem lowerPairs_values_good :
    ∀ p ∈ lowerPairs, ∀ d ∈ unidecodeChar p.2, stableChar d := by decide

/-- Every key of the transliteration table is either a key of the
lowercasing table or maps to a stable output. -/
theorem uniPairs_keys_good :
    ∀ p ∈ uniPairs,
      (∃ q ∈ lowerPairs, q.1 = p.1) ∨ ∀ d ∈ p.2, stableChar d := by decide

/-- Each character produced by lowercasing then transliterating is
stable under another round of normalization. -/
theorem norm_char_stable (c : Char) :
    ∀ d ∈ unidecodeChar (pyLowerChar c), stableChar d := by
  cases h : alookup lowerPairs c with
  | some v =>
    have hmem : (c, v) ∈ lowerPairs := alookup_some_mem _ _ _ h
    have hv : pyLowerChar c = v := by simp [pyLowerChar, h]
    rw [hv]
    exact lowerPairs_values_good _ hmem
  | none =>
    have hc : pyLowerChar c = c := by simp [pyLowerChar, h]
    rw [hc]
    by_cases hlt : c.toNat < 128
    · intro d hd
      simp only [unidecodeChar, if_pos hlt, List.mem_singleton] at hd
      subst hd
      refine ⟨hc, ?_⟩
      simp [unidecodeChar, hlt]
    · cases hu : alookup uniPairs c with
      | none => simp [unidecodeChar, hlt, hu]
      | some lst =>
        have hmem : (c, lst) ∈ uniPairs := alookup_some_mem _ _ _ hu
        rcases uniPairs_keys_good _ hmem with ⟨q, hq, hqc⟩ | hgood
        · exact absurd hqc (alookup_none_ne _ _ h q hq)
        · intro d hd
          simp only [unidecodeChar, if_neg hlt, hu, Option.getD_some] at hd
          exact hgood d hd

theorem map_pyLowerChar_of_stable (l : List Char)
    (h : ∀ d ∈ l, stableChar d) : l.map pyLowerChar = l := by
  induction l with
  | nil => rfl
  | cons c rest ih =>
    have hc := h c (List.mem_cons_self c rest)
    simp only [List.map_cons, hc.1, ih (fun d hd => h d (List.mem_cons_of_mem _ hd))]

theorem flatten_unidecodeChar_of_stable (l : List Char)
    (h : ∀ d ∈ l, stableChar d) : (l.map unidecodeChar).flatten = l := by
  induction l with
  | nil => rfl
  | cons c rest ih =>
    have hc := h c (List.mem_cons_self c rest)
    simp only [List.map_cons, List.flatten_cons, hc.2,
      ih (fun d hd => h d (List.mem_cons_of_mem _ hd))]
    rfl

theorem normalize_data_stable (s : String) :
    ∀ d ∈ (normalize s).data, stableChar d := by
  intro d hd
  simp only [normalize, unidecode, pyLower] at hd
  rcases List.mem_flatten.mp hd with ⟨lst, hlst, hdl⟩
  rcases List.mem_map.mp hlst with ⟨c, hc, rfl⟩
  rcases List.mem_map.mp hc with ⟨c0, _, rfl⟩
  exact norm_char_stable c0 d hdl

theorem normalize_of_stable (s : String)
    (h : ∀ d ∈ s.data, stableChar d) : normalize s = s := by
  obtain ⟨l⟩ := s
  have h2 : ∀ d ∈ l, stableChar d := h
  show String.mk ((l.map pyLowerChar).map unidecodeChar).flatten = String.mk l
  rw [map_pyLowerChar_of_stable l h2, flatten_unidecodeChar_of_stable l h2]

theorem normalize_idem (s : String) : normalize (normalize s) = normalize s :=
  normalize_of_stable (normalize s) (normalize_data_stable s)

theorem data_append (s t : String) : (s ++ t).data = s.data ++ t.data := by
  obtain ⟨a⟩ := s; obtain ⟨b⟩ := t; rfl

/-- Slicing the first two characters commutes with rebuilding a longer
code: `(s[0:4] + "00")[0:2] = s[0:2]` once `s` has at least two
characters. -/
theorem strTake_four_append_two (s : String) (h : 2 ≤ s.data.length) :
    strTake (strTake s 4 ++ "00") 2 = strTake s 2 := by
  simp only [strTake, data_append]
  have hlen : 2 ≤ (s.data.take 4).length := by
    rw [List.length_take]; omega
  rw [List.take_append_of_le_length hlen, List.take_take,
    show (2 : Nat) ⊓ 4 = 2 by norm_num]

/-- The `find?` scan returns the designated element when it satisfies the
predicate and is the only member doing so. -/
theorem find?_eq_of_unique {α : Type} (p : α → Bool) (l : List α) (a : α)
    (ha : a ∈ l) (hpa : p a = true) (huniq : ∀ b ∈ l, p b = true → b = a) :
    l.find? p = some a := by
  induction l with
  | nil => cases ha
  | cons c rest ih =>
    by_cases hc : p c = true
    · rw [List.find?_cons_of_pos _ hc]
      exact congrArg some (huniq c (List.mem_cons_self c rest) hc)
    · rw [List.find?_cons_of_neg _ hc]
      have hac : a ≠ c := fun he => hc (he ▸ hpa)
      rcases List.mem_cons.mp ha with he | hmem
      · exact absurd he hac
      · exact ih hmem (fun b hb hpb => huniq b (List.mem_cons_of_mem _ hb) hpb)

/-- The `find?` scan returns `none` when nothing in the list satisfies the
predicate. -/
theorem find?_eq_none_of_all {α : Type} (p : α → Bool) (l : List α)
    (h : ∀ b ∈ l, p b = false) : l.find? p = none := by
  induction l with
  | nil => rfl
  | cons c rest ih =>
    rw [List.find?_cons_of_neg _ (by simp [h c (List.mem_cons_self c rest)])]
    exact ih (fun b hb => h b (List.mem_cons_of_mem _ hb))

/-- The municipality name scan is governed by `muniMatches`: its result
on a matching head is that municipality with its derived state code,
and a non-matching head is skipped. -/
theorem findMunicipalityLoop_cons_pos (m : Municipality)
    (rest : List Municipality) (q : String) (h : muniMatches q m = true) :
    findMunicipalityLoop (m :: rest) q = some ⟨m, strTake m.codigo 2⟩ := by
  by_cases h1 : (normalize m.nombre == normalize q) = true
  · simp only [findMunicipalityLoop, if_pos h1]
  · have h2 : (m.nombres_alternos.any fun a => normalize a == normalize q) = true := by
      unfold muniMatches at h
      cases hx : (normalize m.nombre == normalize q) with
      | true => exact absurd hx h1
      | false => rw [hx] at h; simpa using h
    simp only [findMunicipalityLoop, if_neg h1, if_pos h2]

theorem findMunicipalityLoop_cons_neg (m : Municipality)
    (rest : List Municipality) (q : String) (h : muniMatches q m = false) :
    findMunicipalityLoop (m :: rest) q = findMunicipalityLoop rest q := by
  unfold muniMatches at h
  have h1 : (normalize m.nombre == normalize q) = false := by
    cases hx : (normalize m.nombre == normalize q) with
    | false => rfl
    | true => rw [hx] at h; simp at h
  have h2 : (m.nombres_alternos.any fun a => normalize a == normalize q) = false := by
    cases hx : (m.nombres_alternos.any fun a => normalize a == normalize q) with
    | false => rfl
    | true => rw [hx] at h; simp at h
  simp only [findMunicipalityLoop, h1, h2, Bool.false_eq_true, if_false]

/-- First-match characterization of the municipality name scan. -/
theorem findMunicipalityLoop_first (pre : List Municipality)
    (m : Municipality) (post : List Municipality) (q : String)
    (hpre : ∀ b ∈ pre, muniMatches q b = false) (hm : muniMatches q m = true) :
    findMunicipalityLoop (pre ++ m :: post) q = some ⟨m, strTake m.codigo 2⟩ := by
  induction pre with
  | nil => exact findMunicipalityLoop_cons_pos m post q hm
  | cons c rest ih =>
    rw [List.cons_append,
      findMunicipalityLoop_cons_neg c _ q (hpre c (List.mem_cons_self c rest))]
    exact ih (fun b hb => hpre b (List.mem_cons_of_mem _ hb))

/-- Uniqueness version: the scan lands on the designated municipality
when it is the only matching member of the list. -/
theorem findMunicipalityLoop_of_unique (l : List Municipality)
    (m : Municipality) (q : String) (hm : m ∈ l) (hq : muniMatches q m = true)
    (huniq : ∀ b ∈ l, muniMatches q b = true → b = m) :
    findMunicipalityLoop l q = some ⟨m, strTake m.codigo 2⟩ := by
  induction l with
  | nil => cases hm
  | cons c rest ih =>
    by_cases hc : muniMatches q c = true
    · have hce : c = m := huniq c (List.mem_cons_self c rest) hc
      subst hce
      exact findMunicipalityLoop_cons_pos c rest q hc
    · have hmc : m ≠ c := fun he => hc (he ▸ hq)
      rw [findMunicipalityLoop_cons_neg c rest q (Bool.not_eq_true _ ▸ hc)]
      rcases List.mem_cons.mp hm with he | hmem
      · exact absurd he hmc
      · exact ih hmem (fun b hb hpb => huniq b (List.mem_cons_of_mem _ hb) hpb)

theorem findMunicipalityLoop_none (l : List Municipality) (q : String)
    (h : ∀ b ∈ l, muniMatches q b = false) :
    findMunicipalityLoop l q = none := by
  induction l with
  | nil => rfl
  | cons c rest ih =>
    rw [findMunicipalityLoop_cons_neg c rest q (h c (List.mem_cons_self c rest))]
    exact ih (fun b hb => h b (List.mem_cons_of_mem _ hb))

theorem findMunicipalityLoop_mem (l : List Municipality) (q : String)
    (hit : MunicipalityHit) (h : findMunicipalityLoop l q = some hit) :
    hit.municipality ∈ l := by
  induction l with
  | nil => simp [findMunicipalityLoop] at h
  | cons c rest ih =>
    by_cases hc : muniMatches q c = true
    · rw [findMunicipalityLoop_cons_pos c rest q hc] at h
      cases h
      exact List.mem_cons_self c rest
    · rw [findMunicipalityLoop_cons_neg c rest q (Bool.not_eq_true _ ▸ hc)] at h
      exact List.mem_cons_of_mem _ (ih h)

/-- The parish name scan mirrors the municipality scan, with the
ancestor codes passed through unchanged. -/
theorem findParishLoop_cons_pos (p : Parish) (rest : List Parish)
    (q mcode scode : String) (h : parishMatches q p = true) :
    findParishLoop (p :: rest) q mcode scode = some ⟨p, mcode, scode⟩ := by
  by_cases h1 : (normalize p.nombre == normalize q) = true
  · simp only [findParishLoop, if_pos h1]
  · have h2 : (p.nombres_alternos.any fun a => normalize a == normalize q) = true := by
      unfold parishMatches at h
      cases hx : (normalize p.nombre == normalize q) with
      | true => exact absurd hx h1
      | false => rw [hx] at h; simpa using h
    simp only [findParishLoop, if_neg h1, if_pos h2]

theorem findParishLoop_cons_neg (p : Parish) (rest : List Parish)
    (q mcode scode : String) (h : parishMatches q p = false) :
    findParishLoop (p :: rest) q mcode scode = findParishLoop rest q mcode scode := by
  unfold parishMatches at h
  have h1 : (normalize p.nombre == normalize q) = false := by
    cases hx : (normalize p.nombre == normalize q) with
    | false => rfl
    | true => rw [hx] at h; simp at h
  have h2 : (p.nombres_alternos.any fun a => normalize a == normalize q) = false := by
    cases hx : (p.nombres_alternos.any fun a => normalize a == normalize q) with
    | false => rfl
    | true => rw [hx] at h; simp at h
  simp only [findParishLoop, h1, h2, Bool.false_eq_true, if_false]

/-- First-match characterization of the parish name scan. -/
theorem findParishLoop_first (pre : List Parish) (p : Parish)
    (post : List Parish) (q mcode scode : String)
    (hpre : ∀ b ∈ pre, parishMatches q b = false)
    (hp : parishMatches q p = true) :
    findParishLoop (pre ++ p :: post) q mcode scode = some ⟨p, mcode, scode⟩ := by
  induction pre with
  | nil => exact findParishLoop_cons_pos p post q mcode scode hp
  | cons c rest ih =>
    rw [List.cons_append,
      findParishLoop_cons_neg c _ q mcode scode (hpre c (List.mem_cons_self c rest))]
    exact ih (fun b hb => hpre b (List.mem_cons_of_mem _ hb))

theorem findParishLoop_of_unique (l : List Parish) (p : Parish)
    (q mcode scode : String) (hp : p ∈ l) (hq : parishMatches q p = true)
    (huniq : ∀ b ∈ l, parishMatches q b = true → b = p) :
    findParishLoop l q mcode scode = some ⟨p, mcode, scode⟩ := by
  induction l with
  | nil => cases hp
  | cons c rest ih =>
    by_cases hc : parishMatches q c = true
    · have hce : c = p := huniq c (List.mem_cons_self c rest) hc
      subst hce
      exact findParishLoop_cons_pos c rest q mcode scode hc
    · have hpc : p ≠ c := fun he => hc (he ▸ hq)
      rw [findParishLoop_cons_neg c rest q mcode scode (Bool.not_eq_true _ ▸ hc)]
      rcases List.mem_cons.mp hp with he | hmem
      · exact absurd he hpc
      · exact ih hmem (fun b hb hpb => huniq b (List.mem_cons_of_mem _ hb) hpb)

theorem findParishLoop_none (l : List Parish) (q mcode scode : String)
    (h : ∀ b ∈ l, parishMatches q b = false) :
    findParishLoop l q mcode scode = none := by
  induction l with
  | nil => rfl
  | cons c rest ih =>
    rw [findParishLoop_cons_neg c rest q mcode scode (h c (List.mem_cons_self c rest))]
    exact ih (fun b hb => h b (List.mem_cons_of_mem _ hb))

theorem findParishLoop_mem (l : List Parish) (q mcode scode : String)
    (hit : ParishHit) (h : findParishLoop l q mcode scode = some hit) :
    hit.parish ∈ l := by
  induction l with
  | nil => simp [findParishLoop] at h
  | cons c rest ih =>
    by_cases hc : parishMatches q c = true
    · rw [findParishLoop_cons_pos c rest q mcode scode hc] at h
      cases h
      exact List.mem_cons_self c rest
    · rw [findParishLoop_cons_neg c rest q mcode scode (Bool.not_eq_true _ ▸ hc)] at h
      exact List.mem_cons_of_mem _ (ih h)

theorem state_by_id_mem (d : Dataset) (sid : String) (st : State)
    (h : get_item_state_by_id (some d) sid = some st) : st ∈ d.estados :=
  List.mem_of_find?_eq_some h

theorem state_by_name_mem (d : Dataset) (sn : String) (st : State)
    (h : get_item_state_by_name (some d) sn = some st) : st ∈ d.estados :=
  List.mem_of_find?_eq_some h

theorem muni_by_id_mem (d : Dataset) (mid : String) (hit : MunicipalityHit)
    (h : get_item_municipality_by_id (some d) mid = some hit) :
    ∃ st ∈ d.estados, hit.municipality ∈ st.municipios := by
  unfold get_item_municipality_by_id at h
  split at h
  · cases h
  · rename_i state hst
    split at h
    · cases h
    · rename_i m hf
      cases h
      exact ⟨state, state_by_id_mem d _ state hst, List.mem_of_find?_eq_some hf⟩

theorem muni_by_name_mem (d : Dataset) (sn mn : String) (hit : MunicipalityHit)
    (h : get_item_municipality_by_name (some d) sn mn = some hit) :
    ∃ st ∈ d.estados, hit.municipality ∈ st.municipios := by
  unfold get_item_municipality_by_name at h
  split at h
  · cases h
  · rename_i state hst
    exact ⟨state, state_by_name_mem d sn state hst,
      findMunicipalityLoop_mem _ _ _ h⟩

theorem parish_by_id_mem (d : Dataset) (pid : String) (ph : ParishHit)
    (h : get_item_parish_by_id (some d) pid = some ph) :
    ∃ st ∈ d.estados, ∃ m ∈ st.municipios, ph.parish ∈ m.parroquias := by
  unfold get_item_parish_by_id at h
  split at h
  · cases h
  · rename_i hit hmu
    split at h
    · cases h
    · rename_i p hf
      cases h
      obtain ⟨st, hst, hm⟩ := muni_by_id_mem d _ hit hmu
      exact ⟨st, hst, hit.municipality, hm, List.mem_of_find?_eq_some hf⟩

theorem parish_by_name_mem (d : Dataset) (sn mn pn : String) (ph : ParishHit)
    (h : get_item_parish (some d) sn mn pn = some ph) :
    ∃ st ∈ d.estados, ∃ m ∈ st.municipios, ph.parish ∈ m.parroquias := by
  unfold get_item_parish at h
  split at h
  · cases h
  · rename_i hit hmu
    obtain ⟨st, hst, hm⟩ := muni_by_name_mem d sn mn hit hmu
    exact ⟨st, hst, hit.municipality, hm, findParishLoop_mem _ _ _ _ _ h⟩

theorem foldl_append_nombre (l : List State) (acc : List String) :
    l.foldl (fun acc st => acc ++ [st.nombre]) acc =
      acc ++ l.map (fun st => st.nombre) := by
  induction l generalizing acc with
  | nil => simp
  | cons st rest ih => simp [List.foldl_cons, ih]

/-- Sample dataset with the concrete scenario of the specification:
state Táchira, municipality San Cristóbal with an alternate name, one
parish. -/
def pSanJuan : Parish := ⟨"070101", "San Juan Bautista", ["Pueblo Nuevo"]⟩

def mSanCristobal : Municipality :=
  ⟨"070100", "San Cristóbal", ["Tachira Capital"], [pSanJuan]⟩

def sTachira : State := ⟨"07", "Táchira", [mSanCristobal]⟩

def dsDemo : Dataset := ⟨[sTachira]⟩

/-- Dataset where an earlier municipality carries an alternate name
equal to the primary name of a later sibling. -/
def mAltFirst : Municipality := ⟨"050100", "Libertad", ["Pueblo Viejo"], []⟩

def mPrimSecond : Municipality := ⟨"050200", "Pueblo Viejo", [], []⟩

def dsAlt : Dataset := ⟨[⟨"05", "Barinas", [mAltFirst, mPrimSecond]⟩]⟩

/-- Dataset with two sibling municipalities sharing the same primary
name; the first of them also holds two sibling parishes sharing the
same primary name. -/
def pDupA : Parish := ⟨"060101", "Altagracia", []⟩

def pDupB : Parish := ⟨"060102", "Altagracia", []⟩

def mDupA : Municipality := ⟨"060100", "Bolívar", [], [pDupA, pDupB]⟩

def mDupB : Municipality := ⟨"060200", "Bolívar", [], []⟩

def dsDup : Dataset := ⟨[⟨"06", "Sucre", [mDupA, mDupB]⟩]⟩

/-- Resolving a state by its own code succeeds when the code is unique
among the states. -/
theorem state_by_id_eval (d : Dataset) (s : State) (hs : s ∈ d.estados)
    (hSuniq : ∀ t ∈ d.estados, t.codigo = s.codigo → t = s) :
    get_item_state_by_id (some d) s.codigo = some s :=
  find?_eq_of_unique _ _ s hs (by simp)
    (fun b hb hpb => hSuniq b hb (by simpa using hpb))

/-- Resolving a state by any accent or case variant of its name
succeeds when the normalized name is unique among the states. -/
theorem state_by_name_eval (d : Dataset) (s : State) (v : String)
    (hs : s ∈ d.estados)
    (hSname : ∀ t ∈ d.estados, normalize t.nombre = normalize s.nombre → t = s)
    (hv : normalize v = normalize s.nombre) :
    get_item_state_by_name (some d) v = some s :=
  find?_eq_of_unique _ _ s hs (by simp [hv])
    (fun b hb hpb => hSname b hb (by rw [← hv]; simpa using hpb))

/-- Full evaluation of the code-based parish lookup on a well-formed
dataset: the result is the stored parish together with the derived
municipality code `p.codigo[0:4] + "00"` and state code
`p.codigo[0:2]`. -/
theorem parish_by_id_eval (d : Dataset) (s : State) (m : Municipality)
    (p : Parish) (hs : s ∈ d.estados) (hm : m ∈ s.municipios)
    (hp : p ∈ m.parroquias) (hlen : p.codigo.data.length = 6)
    (hmc : m.codigo = strTake p.codigo 4 ++ "00")
    (hsc : s.codigo = strTake p.codigo 2)
    (hSuniq : ∀ t ∈ d.estados, t.codigo = s.codigo → t = s)
    (hMuniq : ∀ b ∈ s.municipios, b.codigo = m.codigo → b = m)
    (hPuniq : ∀ b ∈ m.parroquias, b.codigo = p.codigo → b = p) :
    get_item_parish_by_id (some d) p.codigo = some ⟨p, m.codigo, s.codigo⟩ := by
  have hlen2 : 2 ≤ p.codigo.data.length := by omega
  have hstate :
      get_item_state_by_id (some d) (strTake (strTake p.codigo 4 ++ "00") 2) =
        some s := by
    rw [strTake_four_append_two p.codigo hlen2, ← hsc]
    exact state_by_id_eval d s hs hSuniq
  have hfindm :
      s.municipios.find? (fun b => b.codigo == strTake p.codigo 4 ++ "00") =
        some m :=
    find?_eq_of_unique _ _ m hm (by simp [← hmc])
      (fun b hb hpb => hMuniq b hb (by rw [hmc]; simpa using hpb))
  have hmuni :
      get_item_municipality_by_id (some d) (strTake p.codigo 4 ++ "00") =
        some ⟨m, strTake (strTake p.codigo 4 ++ "00") 2⟩ := by
    simp only [get_item_municipality_by_id, hstate, hfindm]
  have hfindp : m.parroquias.find? (fun b => b.codigo == p.codigo) = some p :=
    find?_eq_of_unique _ _ p hp (by simp)
      (fun b hb hpb => hPuniq b hb (by simpa using hpb))
  simp only [get_item_parish_by_id, hmuni, hfindp]
  rw [strTake_four_append_two p.codigo hlen2, ← hsc, hmc]

/-- Full evaluation of the name-based parish lookup on a well-formed
dataset: the result is the stored parish together with the derived
municipality code `m.codigo` and state code `m.codigo[0:2]`. -/
theorem parish_by_name_eval (d : Dataset) (s : State) (m : Municipality)
    (p : Parish) (hs : s ∈ d.estados) (hm : m ∈ s.municipios)
    (hp : p ∈ m.parroquias)
    (hSname : ∀ t ∈ d.estados, normalize t.nombre = normalize s.nombre → t = s)
    (hMname : ∀ b ∈ s.municipios, muniMatches m.nombre b = true → b = m)
    (hPname : ∀ b ∈ m.parroquias, parishMatches p.nombre b = true → b = p) :
    get_item_parish (some d) s.nombre m.nombre p.nombre =
      some ⟨p, m.codigo, strTake m.codigo 2⟩ := by
  have hstate : get_item_state_by_name (some d) s.nombre = some s :=
    state_by_name_eval d s s.nombre hs hSname rfl
  have hloopm :
      findMunicipalityLoop s.municipios m.nombre = some ⟨m, strTake m.codigo 2⟩ :=
    findMunicipalityLoop_of_unique _ m _ hm (by simp [muniMatches]) hMname
  have hloopp :
      findParishLoop m.parroquias p.nombre m.codigo (strTake m.codigo 2) =
        some ⟨p, m.codigo, strTake m.codigo 2⟩ :=
    findParishLoop_of_unique _ p _ _ _ hp (by simp [parishMatches]) hPname
  simp only [get_item_parish, get_item_municipality_by_name, hstate, hloopm,
    hloopp]

/-- Claim C1: for a parish `p` under municipality `m` under state `s`
in a well-formed dataset, the code-based parish lookup on `p.codigo`
derives the municipality code `p.codigo[0:4] + "00"`, resolves the
municipality through the code-based municipality lookup, finds the
parish by its exact code, and returns `p` augmented with
`codigo_municipio = m.codigo` and `codigo_estado = s.codigo`. -/
theorem claim_C1_parish_by_code (d : Dataset) (s : State) (m : Municipality)
    (p : Parish) (hs : s ∈ d.estados) (hm : m ∈ s.municipios)
    (hp : p ∈ m.parroquias) (hlen : p.codigo.data.length = 6)
    (hmc : m.codigo = strTake p.codigo 4 ++ "00")
    (hsc : s.codigo = strTake p.codigo 2)
    (hSuniq : ∀ t ∈ d.estados, t.codigo = s.codigo → t = s)
    (hMuniq : ∀ b ∈ s.municipios, b.codigo = m.codigo → b = m)
    (hPuniq : ∀ b ∈ m.parroquias, b.codigo = p.codigo → b = p) :
    get_item_parish_by_id (some d) p.codigo = some ⟨p, m.codigo, s.codigo⟩ :=
  parish_by_id_eval d s m p hs hm hp hlen hmc hsc hSuniq hMuniq hPuniq

theorem claim_C1_witness :
    get_item_parish_by_id (some dsDemo) pSanJuan.codigo =
      some ⟨pSanJuan, mSanCristobal.codigo, sTachira.codigo⟩ :=
  claim_C1_parish_by_code dsDemo sTachira mSanCristobal pSanJuan
    (by decide) (by decide) (by decide) (by decide) (by decide) (by decide)
    (by decide) (by decide) (by decide)

/-- Claim C4: on a well-formed dataset, the code-based and name-based
parish lookup paths agree: both return the same parish record with the
same attached `codigo_municipio` and `codigo_estado`. -/
theorem claim_C4_code_name_agree (d : Dataset) (s : State) (m : Municipality)
    (p : Parish) (hs : s ∈ d.estados) (hm : m ∈ s.municipios)
    (hp : p ∈ m.parroquias) (hlen : p.codigo.data.length = 6)
    (hmc : m.codigo = strTake p.codigo 4 ++ "00")
    (hsc : s.codigo = strTake p.codigo 2)
    (hSuniq : ∀ t ∈ d.estados, t.codigo = s.codigo → t = s)
    (hMuniq : ∀ b ∈ s.municipios, b.codigo = m.codigo → b = m)
    (hPuniq : ∀ b ∈ m.parroquias, b.codigo = p.codigo → b = p)
    (hSname : ∀ t ∈ d.estados, normalize t.nombre = normalize s.nombre → t = s)
    (hMname : ∀ b ∈ s.municipios, muniMatches m.nombre b = true → b = m)
    (hPname : ∀ b ∈ m.parroquias, parishMatches p.nombre b = true → b = p) :
    get_item_parish (some d) s.nombre m.nombre p.nombre =
        get_item_parish_by_id (some d) p.codigo ∧
      (get_item_parish_by_id (some d) p.codigo).isSome = true := by
  have hlen2 : 2 ≤ p.codigo.data.length := by omega
  rw [parish_by_id_eval d s m p hs hm hp hlen hmc hsc hSuniq hMuniq hPuniq,
    parish_by_name_eval d s m p hs hm hp hSname hMname hPname]
  refine ⟨?_, rfl⟩
  rw [hmc, strTake_four_append_two p.codigo hlen2, ← hsc]

theorem claim_C4_witness :
    (get_item_parish (some dsDemo) sTachira.nombre mSanCristobal.nombre
          pSanJuan.nombre =
        get_item_parish_by_id (some dsDemo) pSanJuan.codigo) ∧
      (get_item_parish_by_id (some dsDemo) pSanJuan.codigo).isSome = true :=
  claim_C4_code_name_agree dsDemo sTachira mSanCristobal pSanJuan
    (by decide) (by decide) (by decide) (by decide) (by decide) (by decide)
    (by decide) (by decide) (by decide) (by decide) (by decide) (by decide)

/-- Claim C5: for every state `s` of a well-formed dataset, the
code-based state lookup on `s.codigo` returns `s`, and the name-based
state lookup returns `s` for every query whose normalized form equals
the normalized form of `s.nombre`. -/
theorem claim_C5_state_lookups (d : Dataset) (s : State) (v : String)
    (hs : s ∈ d.estados)
    (hSuniq : ∀ t ∈ d.estados, t.codigo = s.codigo → t = s)
    (hSname : ∀ t ∈ d.estados, normalize t.nombre = normalize s.nombre → t = s)
    (hv : normalize v = normalize s.nombre) :
    get_item_state_by_id (some d) s.codigo = some s ∧
      get_item_state_by_name (some d) v = some s :=
  ⟨state_by_id_eval d s hs hSuniq, state_by_name_eval d s v hs hSname hv⟩

theorem claim_C5_witness :
    get_item_state_by_id (some dsDemo) sTachira.codigo = some sTachira ∧
      get_item_state_by_name (some dsDemo) "tachira" = some sTachira :=
  claim_C5_state_lookups dsDemo sTachira "tachira"
    (by decide) (by decide) (by decide) (by decide)

/-- Claim C6: a municipality is reachable by name through any of its
alternate names: if `a` is an alternate name of `m` under state `s` and
no sibling of `m` also matches `a`, the name-based municipality lookup
on `(s.nombre, a)` returns `m` (with its derived state code). -/
theorem claim_C6_alt_name (d : Dataset) (s : State) (m : Municipality)
    (a : String) (hs : s ∈ d.estados)
    (hSname : ∀ t ∈ d.estados, normalize t.nombre = normalize s.nombre → t = s)
    (hm : m ∈ s.municipios) (ha : a ∈ m.nombres_alternos)
    (hMuniq : ∀ b ∈ s.municipios, muniMatches a b = true → b = m) :
    get_item_municipality_by_name (some d) s.nombre a =
      some ⟨m, strTake m.codigo 2⟩ := by
  have hstate : get_item_state_by_name (some d) s.nombre = some s :=
    state_by_name_eval d s s.nombre hs hSname rfl
  have hmm : muniMatches a m = true := by
    simp only [muniMatches, Bool.or_eq_true, beq_iff_eq, List.any_eq_true]
    exact Or.inr ⟨a, ha, rfl⟩
  simp only [get_item_municipality_by_name, hstate]
  exact findMunicipalityLoop_of_unique _ m _ hm hmm hMuniq

theorem claim_C6_witness :
    get_item_municipality_by_name (some dsDemo) sTachira.nombre
        "Tachira Capital" =
      some ⟨mSanCristobal, strTake mSanCristobal.codigo 2⟩ :=
  claim_C6_alt_name dsDemo sTachira mSanCristobal "Tachira Capital"
    (by decide) (by decide) (by decide) (by decide) (by decide)

/-- Claim C2 counterexample: in `dsAlt` the query `"Pueblo Viejo"`
normalizes to the primary name of `mPrimSecond`, yet the lookup returns
the earlier sibling `mAltFirst`, which only matches through an
alternate name; primary-name matches do not take precedence across
siblings. -/
theorem claim_C2_counterexample :
    normalize "Pueblo Viejo" = normalize mPrimSecond.nombre ∧
      (∃ st ∈ dsAlt.estados, mPrimSecond ∈ st.municipios) ∧
      get_item_municipality_by_name (some dsAlt) "Barinas" "Pueblo Viejo" =
        some ⟨mAltFirst, "05"⟩ ∧
      some (MunicipalityHit.mk mAltFirst "05") ≠
        some (MunicipalityHit.mk mPrimSecond "05") := by
  decide

/-- Claim C2 (amended): sibling iteration order wins.  The name-based
municipality lookup returns the first municipality in stored order
whose primary name or some alternate name matches the normalized
query; within a single candidate the primary name is compared first and
the alternate names afterwards, so an earlier sibling matched through
an alternate name takes precedence over a later sibling whose primary
name matches. -/
theorem claim_C2_first_sibling_wins (d : Dataset) (s : State) (q : String)
    (pre : List Municipality) (m : Municipality) (post : List Municipality)
    (hs : s ∈ d.estados)
    (hSname : ∀ t ∈ d.estados, normalize t.nombre = normalize s.nombre → t = s)
    (hsplit : s.municipios = pre ++ m :: post)
    (hpre : ∀ b ∈ pre, muniMatches q b = false)
    (hm : muniMatches q m = true) :
    get_item_municipality_by_name (some d) s.nombre q =
      some ⟨m, strTake m.codigo 2⟩ := by
  have hstate : get_item_state_by_name (some d) s.nombre = some s :=
    state_by_name_eval d s s.nombre hs hSname rfl
  simp only [get_item_municipality_by_name, hstate, hsplit]
  exact findMunicipalityLoop_first pre m post q hpre hm

theorem claim_C2_witness :
    get_item_municipality_by_name (some dsAlt) "Barinas" "Pueblo Viejo" =
      some ⟨mAltFirst, strTake mAltFirst.codigo 2⟩ :=
  claim_C2_first_sibling_wins dsAlt ⟨"05", "Barinas", [mAltFirst, mPrimSecond]⟩
    "Pueblo Viejo" [] mAltFirst [mPrimSecond]
    (by decide) (by decide) (by decide) (by decide) (by decide)

/-- Claim C3 counterexample: in `dsDup` the sibling municipalities
`mDupA` and `mDupB` share the primary name `"Bolívar"`, and the sibling
parishes `pDupA` and `pDupB` under `mDupA` share the primary name
`"Altagracia"`; at both levels the name-based lookup returns the entity
occurring first in dataset order, not the last one. -/
theorem claim_C3_counterexample :
    mDupA.nombre = mDupB.nombre ∧ mDupA ≠ mDupB ∧
      dsDup.estados = [⟨"06", "Sucre", [mDupA, mDupB]⟩] ∧
      get_item_municipality_by_name (some dsDup) "Sucre" "bolivar" =
        some ⟨mDupA, "06"⟩ ∧
      some (MunicipalityHit.mk mDupA "06") ≠
        some (MunicipalityHit.mk mDupB "06") ∧
      pDupA.nombre = pDupB.nombre ∧ pDupA ≠ pDupB ∧
      mDupA.parroquias = [pDupA, pDupB] ∧
      get_item_parish (some dsDup) "Sucre" "bolivar" "altagracia" =
        some ⟨pDupA, "060100", "06"⟩ ∧
      some (ParishHit.mk pDupA "060100" "06") ≠
        some (ParishHit.mk pDupB "060100" "06") := by
  decide

/-- Claim C3 (amended): on duplicate normalized names the name-based
lookup is first-indexed-wins, not last, at both levels: when two
sibling municipalities both match the municipality query, the one
occurring earlier in dataset order is returned, and when two sibling
parishes of the resolved municipality both match the parish query, the
one occurring earlier in dataset order is returned. -/
theorem claim_C3_first_duplicate_wins (d : Dataset) (s : State) (q : String)
    (hs : s ∈ d.estados)
    (hSname : ∀ t ∈ d.estados, normalize t.nombre = normalize s.nombre → t = s) :
    (∀ pre m₁ mid m₂ post,
        s.municipios = pre ++ m₁ :: (mid ++ m₂ :: post) →
        (∀ b ∈ pre, muniMatches q b = false) →
        muniMatches q m₁ = true → muniMatches q m₂ = true →
        get_item_municipality_by_name (some d) s.nombre q =
          some ⟨m₁, strTake m₁.codigo 2⟩) ∧
    (∀ mq mpre m mpost ppre p₁ pmid p₂ ppost,
        s.municipios = mpre ++ m :: mpost →
        (∀ b ∈ mpre, muniMatches mq b = false) →
        muniMatches mq m = true →
        m.parroquias = ppre ++ p₁ :: (pmid ++ p₂ :: ppost) →
        (∀ b ∈ ppre, parishMatches q b = false) →
        parishMatches q p₁ = true → parishMatches q p₂ = true →
        get_item_parish (some d) s.nombre mq q =
          some ⟨p₁, m.codigo, strTake m.codigo 2⟩) := by
  have hstate : get_item_state_by_name (some d) s.nombre = some s :=
    state_by_name_eval d s s.nombre hs hSname rfl
  constructor
  · intro pre m₁ mid m₂ post hsplit hpre h₁ _h₂
    simp only [get_item_municipality_by_name, hstate, hsplit]
    exact findMunicipalityLoop_first pre m₁ (mid ++ m₂ :: post) q hpre h₁
  · intro mq mpre m mpost ppre p₁ pmid p₂ ppost hmsplit hmpre hmm hpsplit hppre
      hp₁ _hp₂
    have hmuni : get_item_municipality_by_name (some d) s.nombre mq =
        some ⟨m, strTake m.codigo 2⟩ := by
      simp only [get_item_municipality_by_name, hstate, hmsplit]
      exact findMunicipalityLoop_first mpre m mpost mq hmpre hmm
    simp only [get_item_parish, hmuni]
    rw [hpsplit]
    exact findParishLoop_first ppre p₁ (pmid ++ p₂ :: ppost) q m.codigo
      (strTake m.codigo 2) hppre hp₁

theorem claim_C3_witness :
    get_item_municipality_by_name (some dsDup) "Sucre" "bolivar" =
        some ⟨mDupA, strTake mDupA.codigo 2⟩ ∧
      get_item_parish (some dsDup) "Sucre" "bolivar" "altagracia" =
        some ⟨pDupA, mDupA.codigo, strTake mDupA.codigo 2⟩ :=
  ⟨(claim_C3_first_duplicate_wins dsDup ⟨"06", "Sucre", [mDupA, mDupB]⟩
      "bolivar" (by decide) (by decide)).1 [] mDupA [] mDupB []
      (by decide) (by decide) (by decide) (by decide),
   (claim_C3_first_duplicate_wins dsDup ⟨"06", "Sucre", [mDupA, mDupB]⟩
      "altagracia" (by decide) (by decide)).2 "bolivar" [] mDupA [mDupB]
      [] pDupA [] pDupB []
      (by decide) (by decide) (by decide) (by decide) (by decide) (by decide)
      (by decide)⟩

/-- Claim C7: the name normalization (lowercasing followed by
diacritic stripping) is idempotent, and it identifies accent and case
variants such as `"Táchira"` and `"tachira"`. -/
theorem claim_C7_normalize :
    (∀ x : String, normalize (normalize x) = normalize x) ∧
      normalize "Táchira" = normalize "tachira" :=
  ⟨normalize_idem, by decide⟩

/-- Claim C8: a query that does not resolve to any entity yields the
typed absent result `none` (the boolean `False` of the source) at every
level, for both code-based and name-based lookups. -/
theorem claim_C8_not_found (d : Dataset) (q : String) :
    ((∀ st ∈ d.estados, st.codigo ≠ q) →
        get_item_state_by_id (some d) q = none) ∧
    ((∀ st ∈ d.estados, normalize st.nombre ≠ normalize q) →
        get_item_state_by_name (some d) q = none) ∧
    ((∀ st ∈ d.estados, ∀ m ∈ st.municipios, m.codigo ≠ q) →
        get_item_municipality_by_id (some d) q = none) ∧
    (∀ sn, (∀ st ∈ d.estados, ∀ m ∈ st.municipios, muniMatches q m = false) →
        get_item_municipality_by_name (some d) sn q = none) ∧
    ((∀ st ∈ d.estados, ∀ m ∈ st.municipios, ∀ p ∈ m.parroquias, p.codigo ≠ q) →
        get_item_parish_by_id (some d) q = none) ∧
    (∀ sn mn,
      (∀ st ∈ d.estados, ∀ m ∈ st.municipios, ∀ p ∈ m.parroquias,
          parishMatches q p = false) →
        get_item_parish (some d) sn mn q = none) := by
  refine ⟨?_, ?_, ?_, ?_, ?_, ?_⟩
  · intro h
    exact find?_eq_none_of_all _ _ (fun b hb => by simpa using h b hb)
  · intro h
    exact find?_eq_none_of_all _ _ (fun b hb => by simpa using h b hb)
  · intro h
    unfold get_item_municipality_by_id
    split
    · rfl
    · rename_i state hst
      rw [find?_eq_none_of_all _ _
        (fun b hb => by simpa using h state (state_by_id_mem d _ state hst) b hb)]
  · intro sn h
    unfold get_item_municipality_by_name
    split
    · rfl
    · rename_i state hst
      exact findMunicipalityLoop_none _ _
        (fun b hb => h state (state_by_name_mem d sn state hst) b hb)
  · intro h
    unfold get_item_parish_by_id
    split
    · rfl
    · rename_i hit hmu
      obtain ⟨st, hst, hm⟩ := muni_by_id_mem d _ hit hmu
      rw [find?_eq_none_of_all _ _
        (fun b hb => by simpa using h st hst hit.municipality hm b hb)]
  · intro sn mn h
    unfold get_item_parish
    split
    · rfl
    · rename_i hit hmu
      obtain ⟨st, hst, hm⟩ := muni_by_name_mem d sn mn hit hmu
      exact findParishLoop_none _ _ _ _
        (fun b hb => h st hst hit.municipality hm b hb)

theorem claim_C8_witness :
    get_item_state_by_id (some dsDemo) "99" = none ∧
      get_item_state_by_name (some dsDemo) "99" = none ∧
      get_item_municipality_by_id (some dsDemo) "99" = none ∧
      get_item_municipality_by_name (some dsDemo) "Táchira" "99" = none ∧
      get_item_parish_by_id (some dsDemo) "99" = none ∧
      get_item_parish (some dsDemo) "Táchira" "San Cristóbal" "99" = none :=
  ⟨(claim_C8_not_found dsDemo "99").1 (by decide),
   (claim_C8_not_found dsDemo "99").2.1 (by decide),
   (claim_C8_not_found dsDemo "99").2.2.1 (by decide),
   (claim_C8_not_found dsDemo "99").2.2.2.1 "Táchira" (by decide),
   (claim_C8_not_found dsDemo "99").2.2.2.2.1 (by decide),
   (claim_C8_not_found dsDemo "99").2.2.2.2.2 "Táchira" "San Cristóbal"
     (by decide)⟩

/-- Claim C9: the state listing returns the `nombre` of every state in
dataset order, and the empty list when the dataset failed to load. -/
theorem claim_C9_list_states :
    get_list_states none = [] ∧
      ∀ d : Dataset,
        get_list_states (some d) = d.estados.map (fun st => st.nombre) := by
  refine ⟨rfl, fun d => ?_⟩
  simpa using foldl_append_nombre d.estados []

/-- Claim C10: every successful municipality or parish lookup returns a
stored entity record of the dataset itself (augmented only with the
ancestor-code fields of the result type): the original fields are the
dataset values, unchanged. -/
theorem claim_C10_frame (d : Dataset) :
    (∀ mid hit, get_item_municipality_by_id (some d) mid = some hit →
        ∃ st ∈ d.estados, hit.municipality ∈ st.municipios) ∧
    (∀ sn mn hit, get_item_municipality_by_name (some d) sn mn = some hit →
        ∃ st ∈ d.estados, hit.municipality ∈ st.municipios) ∧
    (∀ pid ph, get_item_parish_by_id (some d) pid = some ph →
        ∃ st ∈ d.estados, ∃ m ∈ st.municipios, ph.parish ∈ m.parroquias) ∧
    (∀ sn mn pn ph, get_item_parish (some d) sn mn pn = some ph →
        ∃ st ∈ d.estados, ∃ m ∈ st.municipios, ph.parish ∈ m.parroquias) :=
  ⟨fun mid hit h => muni_by_id_mem d mid hit h,
   fun sn mn hit h => muni_by_name_mem d sn mn hit h,
   fun pid ph h => parish_by_id_mem d pid ph h,
   fun sn mn pn ph h => parish_by_name_mem d sn mn pn ph h⟩

theorem claim_C10_witness :
    (∃ st ∈ dsDemo.estados,
        (MunicipalityHit.mk mSanCristobal "07").municipality ∈ st.municipios) ∧
      ∃ st ∈ dsDemo.estados, ∃ m ∈ st.municipios,
        (ParishHit.mk pSanJuan "070100" "07").parish ∈ m.parroquias :=
  ⟨(claim_C10_frame dsDemo).1 "070100" ⟨mSanCristobal, "07"⟩ (by decide),
   (claim_C10_frame dsDemo).2.2.1 "070101" ⟨pSanJuan, "070100", "07"⟩
     (by decide)⟩

end Ubigeo
